import Mathlib

/-!
Shallow embedding of `evalSpice.py` (a small SPICE-like DC circuit
evaluator): netlist parsing, modified-nodal-analysis matrix formation,
linear solve, and result mapping.  The input file is modelled as the
list of its lines; Python floats are modelled as exact rationals;
Python exceptions are modelled by an error type threaded through
`Except`.
-/

namespace Spice

/-- The distinct Python exceptions the program can raise, one constructor
per distinct raise site / message. -/
inductive SpiceError where
  /-- `ValueError("Malformed circuit file")` — missing `.circuit` or `.end`. -/
  | malformedCircuitFile
  /-- `ValueError("Duplicate resistor name found.")` -/
  | duplicateResistor
  /-- `ValueError("Duplicate voltage source name found.")` -/
  | duplicateVoltage
  /-- `ValueError("Duplicate current source name found.")` -/
  | duplicateCurrent
  /-- `ValueError("Insufficient data to access resistor value.")` -/
  | insufficientResistor
  /-- `ValueError("Insufficient data to access voltage source value.")` -/
  | insufficientVoltage
  /-- `ValueError("Insufficient data to access current source value.")` -/
  | insufficientCurrent
  /-- `ValueError("Only V, I, R elements are permitted")` -/
  | onlyVIRPermitted
  /-- Python `IndexError` (out-of-range list subscript, e.g. `words[2]`
  on a two-token line, or `Matrix[-1]` on an empty matrix). -/
  | indexError
  /-- `TypeError("Malformed circuit file")` — raised by the bare
  `except:` handlers around the numeric conversions in
  `matrix_formation`. -/
  | typeErrorMalformed
  /-- `ZeroDivisionError` — the explicit `raise ZeroDivisionError`
  in `matrix_formation` (see `stampResistor` for why it is unreachable). -/
  | zeroDivisionError
  /-- `ValueError("Circuit error: no solution")` — singular system. -/
  | noSolution
deriving DecidableEq, Repr

/-! ### Python string primitives

`str.strip()` and `str.split()` (no separator: split on runs of
whitespace, dropping empty tokens), modelled on the character list of
the string. -/

/-- Python whitespace for `strip`/`split`: space, tab, newline, carriage
return, vertical tab, form feed. -/
def pyIsSpace (c : Char) : Bool :=
  c = ' ' ∨ c = '\t' ∨ c = '\n' ∨ c = '\r' ∨
    c = Char.ofNat 11 ∨ c = Char.ofNat 12

/-- `str.strip()` on a character list. -/
def pystripList (cs : List Char) : List Char :=
  ((cs.dropWhile pyIsSpace).reverse.dropWhile pyIsSpace).reverse

/-- `line.strip()`. -/
def pystrip (s : String) : String := ⟨pystripList s.data⟩

/-- Helper for `pywords`: split a character list on whitespace runs,
`acc` holding the (reversed) current token. -/
def pywordsAux : List Char → List Char → List (List Char)
  | [], acc => if acc.isEmpty then [] else [acc.reverse]
  | c :: cs, acc =>
    if pyIsSpace c then
      if acc.isEmpty then pywordsAux cs [] else acc.reverse :: pywordsAux cs []
    else pywordsAux cs (c :: acc)

/-- `line.split()`: whitespace-separated tokens, empty tokens dropped.
Every produced token is a nonempty string. -/
def pywords (s : String) : List String :=
  (pywordsAux s.data []).map fun w => (⟨w⟩ : String)

/-! ### Python `float()` on strings

Modelled as an exact rational: optional surrounding whitespace, optional
sign, then digits with an optional fractional part and an optional
decimal exponent.  (`inf`/`nan` and digit underscores are not modelled;
no netlist in this development uses them.)  `none` models the
`ValueError` that `float()` raises on a non-numeric string. -/

/-- Digit run to a natural number (most significant first). -/
def digitsToNat (ds : List Char) : Nat :=
  ds.foldl (fun a c => 10 * a + (c.toNat - 48)) 0

/-- Parse the exponent part after `e`/`E`: optional sign then a nonempty
digit run consuming the whole rest. -/
def parseExponent (cs : List Char) : Option Int :=
  let (sgn, rest) : Int × List Char :=
    match cs with
    | '+' :: r => (1, r)
    | '-' :: r => (-1, r)
    | r => (1, r)
  if rest.isEmpty ∨ ¬ rest.all Char.isDigit then none
  else some (sgn * (digitsToNat rest : Int))

/-- Parse an unsigned decimal: `digits`, `digits.digits?`, `.digits`,
each optionally followed by an exponent. -/
def parseUnsignedFloat (cs : List Char) : Option ℚ :=
  let intPart := cs.takeWhile Char.isDigit
  let rest := cs.dropWhile Char.isDigit
  match rest with
  | [] => if intPart.isEmpty then none else some (digitsToNat intPart : ℚ)
  | '.' :: rest2 =>
    let fracPart := rest2.takeWhile Char.isDigit
    let rest3 := rest2.dropWhile Char.isDigit
    if intPart.isEmpty ∧ fracPart.isEmpty then none
    else
      let base : ℚ :=
        (digitsToNat intPart : ℚ) +
          (digitsToNat fracPart : ℚ) / ((10 : ℚ) ^ fracPart.length)
      match rest3 with
      | [] => some base
      | 'e' :: r => (parseExponent r).map fun e => base * (10 : ℚ) ^ e
      | 'E' :: r => (parseExponent r).map fun e => base * (10 : ℚ) ^ e
      | _ => none
  | 'e' :: r =>
    if intPart.isEmpty then none
    else (parseExponent r).map fun e => (digitsToNat intPart : ℚ) * (10 : ℚ) ^ e
  | 'E' :: r =>
    if intPart.isEmpty then none
    else (parseExponent r).map fun e => (digitsToNat intPart : ℚ) * (10 : ℚ) ^ e
  | _ => none

/-- Python `float(s)` for a string token: `some q` on success, `none`
models the `ValueError` on a malformed number. -/
def pyfloat (s : String) : Option ℚ :=
  match pystripList s.data with
  | '+' :: r => parseUnsignedFloat r
  | '-' :: r => (parseUnsignedFloat r).map Neg.neg
  | r => parseUnsignedFloat r

/-! ### Data model

The Python code stores each component as a dict
`{"name": …, "n1": str(index), "n2": str(index), "value": raw token}`;
the node indices round-trip through `str`/`int`, so they are modelled
directly as naturals.  The value stays a raw token, its numeric
conversion deferred to `matrix_formation`, as in the source. -/

structure Component where
  name : String
  n1 : Nat
  n2 : Nat
  value : String
deriving DecidableEq, Repr

/-- The parser's loop state: the three component lists, the node map
(dict modelled as an insertion-ordered association list), the node
counter, the `Junk` flag, and the three per-kind name sets (modelled as
lists of the exact tokens). -/
structure ParseState where
  resistors : List Component
  voltageSources : List Component
  currentSources : List Component
  nodeMapping : List (String × Nat)
  nodeCounter : Nat
  junk : Bool
  resistorNames : List String
  voltageSourceNames : List String
  currentSourceNames : List String
deriving DecidableEq, Repr

/-- `mapping_nodes`: look the name up; on a miss assign the current
counter value and bump the counter.  The Python mutates the dict; here
the updated map is returned. -/
def mapping_nodes (node_name : String) (node_mapping : List (String × Nat))
    (node_counter : Nat) : Nat × List (String × Nat) × Nat :=
  match node_mapping.lookup node_name with
  | some i => (i, node_mapping, node_counter)
  | none => (node_counter, node_mapping ++ [(node_name, node_counter)], node_counter + 1)

/-- The body of the parsing loop for one non-marker line inside the
active block, given its whitespace-split tokens.  Mirrors the Python
statement order: element type from `words[0][0]`, then the
unconditional reads `words[1], words[2]` (an `IndexError` on lines with
fewer than three tokens), node mapping of both node tokens, then the
per-kind duplicate-name check, length check and append. -/
def processWords (s : ParseState) (words : List String) :
    Except SpiceError ParseState :=
  if words.length > 0 then
    let w0 := words.headD ""
    -- `words[0][0]` on an empty token would raise IndexError; `split`
    -- never yields an empty token, so this branch is only defensive.
    if w0.data.isEmpty then .error .indexError
    else
      let element_type := (w0.data.headD ' ').toUpper
      if words.length < 3 then .error .indexError
      else
        let r1 := mapping_nodes (words.getD 1 "") s.nodeMapping s.nodeCounter
        let r2 := mapping_nodes (words.getD 2 "") r1.2.1 r1.2.2
        let n1 := r1.1
        let n2 := r2.1
        let s := { s with nodeMapping := r2.2.1, nodeCounter := r2.2.2 }
        if element_type = 'R' then
          if w0 ∈ s.resistorNames then .error .duplicateResistor
          else
            let s := { s with resistorNames := s.resistorNames ++ [w0] }
            if words.length < 4 then .error .insufficientResistor
            else .ok { s with
              resistors := s.resistors ++ [⟨w0, n1, n2, words.getD 3 ""⟩] }
        else if element_type = 'V' then
          if w0 ∈ s.voltageSourceNames then .error .duplicateVoltage
          else
            let s := { s with voltageSourceNames := s.voltageSourceNames ++ [w0] }
            if words.length < 5 then .error .insufficientVoltage
            else .ok { s with
              voltageSources := s.voltageSources ++ [⟨w0, n1, n2, words.getD 4 ""⟩] }
        else if element_type = 'I' then
          if w0 ∈ s.currentSourceNames then .error .duplicateCurrent
          else
            let s := { s with currentSourceNames := s.currentSourceNames ++ [w0] }
            if words.length < 5 then .error .insufficientCurrent
            else .ok { s with
              currentSources := s.currentSources ++ [⟨w0, n1, n2, words.getD 4 ""⟩] }
        else .error .onlyVIRPermitted
  else .ok s

/-- One iteration of the parsing loop: marker lines toggle the `Junk`
flag (every `.circuit` re-enables element parsing, every `.end`
disables it), non-marker lines are skipped while `Junk` is set and
otherwise processed through `processWords`. -/
def processLine (s : ParseState) (line : String) : Except SpiceError ParseState :=
  if pystrip line = ".circuit" then .ok { s with junk := false }
  else if pystrip line = ".end" then .ok { s with junk := true }
  else if s.junk then .ok s
  else processWords s (pywords line)

/-- The parsing loop over all lines. -/
def parseLines (s : ParseState) : List String → Except SpiceError ParseState
  | [] => .ok s
  | l :: ls =>
    match processLine s l with
    | .ok s2 => parseLines s2 ls
    | .error e => .error e

/-- The parser's initial state: ground pre-seeded at index 0, counter
starting at 1, `Junk` set. -/
def initState : ParseState where
  resistors := []
  voltageSources := []
  currentSources := []
  nodeMapping := [("GND", 0)]
  nodeCounter := 1
  junk := true
  resistorNames := []
  voltageSourceNames := []
  currentSourceNames := []

/-- `parsing`, on the list of lines of the file.  The two preliminary
scans count the lines whose stripped form differs from the marker and
fail when that count equals the number of lines, i.e. exactly when no
line strips to the marker. -/
def parsing (lines : List String) :
    Except SpiceError
      (List Component × List Component × List Component × List (String × Nat) × Nat) :=
  if ¬ lines.any (fun l => pystrip l = ".circuit") then .error .malformedCircuitFile
  else if ¬ lines.any (fun l => pystrip l = ".end") then .error .malformedCircuitFile
  else
    match parseLines initState lines with
    | .ok s =>
      .ok (s.resistors, s.voltageSources, s.currentSources, s.nodeMapping, s.nodeCounter)
    | .error e => .error e

/-! ### Python list subscripts

numpy arrays (like Python lists) accept negative subscripts counting
from the end; an index out of `[-len, len)` raises `IndexError`. -/

/-- Resolve a Python subscript `i` on a sequence of length `n`. -/
def pyIndex (n : Nat) (i : Int) : Option Nat :=
  if 0 ≤ i ∧ i < (n : Int) then some i.toNat
  else if 0 ≤ i + n ∧ i < 0 then some (i + n).toNat
  else none

/-- `v[i] = f(v[i])` with Python subscript semantics. -/
def pyModifyVec (v : List ℚ) (i : Int) (f : ℚ → ℚ) :
    Except SpiceError (List ℚ) :=
  match pyIndex v.length i with
  | some k => .ok (v.set k (f (v.getD k 0)))
  | none => .error .indexError

/-- `M[i][j] = f(M[i][j])` with Python subscript semantics. -/
def pyModifyMat (M : List (List ℚ)) (i j : Int) (f : ℚ → ℚ) :
    Except SpiceError (List (List ℚ)) :=
  match pyIndex M.length i with
  | some r =>
    match pyModifyVec (M.getD r []) j f with
    | .ok row => .ok (M.set r row)
    | .error e => .error e
  | none => .error .indexError

/-! ### Matrix formation (stamping) -/

/-- The resistor part of `matrix_formation`'s loop body.

The Python guard is `if float(Resistor["value"]==0): raise
ZeroDivisionError`.  `Resistor["value"]` is a string and `0` an int, so
the comparison is always `False` and `float(False) = 0.0` is falsy: the
guard never fires, for any value token, and the explicit
`ZeroDivisionError` is unreachable.  A value that does parse to zero
instead raises ZeroDivisionError from `1 / float(value)` inside the
`try`, whose bare `except:` re-raises it as
`TypeError("Malformed circuit file")` — the same exception a
non-numeric value produces. -/
def stampResistor (M : List (List ℚ)) (r : Component) :
    Except SpiceError (List (List ℚ)) :=
  match pyfloat r.value with
  | none => .error .typeErrorMalformed
  | some v =>
    if v = 0 then .error .typeErrorMalformed
    else
      if (r.n1 : Int) ≠ (r.n2 : Int) then
        match (if (r.n1 : Int) ≠ 0 then
            pyModifyMat M ((r.n1 : Int) - 1) ((r.n1 : Int) - 1) (· + 1 / v)
          else Except.ok M) with
        | Except.error e => Except.error e
        | Except.ok M1 =>
          match (if (r.n2 : Int) ≠ 0 then
              pyModifyMat M1 ((r.n2 : Int) - 1) ((r.n2 : Int) - 1) (· + 1 / v)
            else Except.ok M1) with
          | Except.error e => Except.error e
          | Except.ok M2 =>
            if (r.n1 : Int) ≠ 0 ∧ (r.n2 : Int) ≠ 0 then
              match pyModifyMat M2 ((r.n1 : Int) - 1) ((r.n2 : Int) - 1) (· - 1 / v) with
              | Except.error e => Except.error e
              | Except.ok M3 => pyModifyMat M3 ((r.n2 : Int) - 1) ((r.n1 : Int) - 1) (· - 1 / v)
            else Except.ok M2
      else pyModifyMat M ((r.n1 : Int) - 1) ((r.n1 : Int) - 1) (· + 1 / v)

/-- The resistor loop. -/
def stampResistors (M : List (List ℚ)) :
    List Component → Except SpiceError (List (List ℚ))
  | [] => .ok M
  | r :: rs =>
    match stampResistor M r with
    | .ok M2 => stampResistors M2 rs
    | .error e => .error e

/-- The current-source part of the loop: subtract the current from the
right-hand-side row of `n1` and add it to the row of `n2`, skipping
ground rows. -/
def stampCurrent (b : List ℚ) (c : Component) : Except SpiceError (List ℚ) :=
  match pyfloat c.value with
  | none => .error .typeErrorMalformed
  | some cur =>
    match (if (c.n1 : Int) ≠ 0 then
        pyModifyVec b ((c.n1 : Int) - 1) (· - cur)
      else Except.ok b) with
    | Except.error e => Except.error e
    | Except.ok b1 =>
      if (c.n2 : Int) ≠ 0 then pyModifyVec b1 ((c.n2 : Int) - 1) (· + cur)
      else Except.ok b1

/-- The current-source loop. -/
def stampCurrents (b : List ℚ) : List Component → Except SpiceError (List ℚ)
  | [] => .ok b
  | c :: cs =>
    match stampCurrent b c with
    | .ok b2 => stampCurrents b2 cs
    | .error e => .error e

/-- The voltage-source part of the loop for the `i`-th source
(0-indexed declaration order): write ±1 couplings between the source's
extra row `total_nodes + i` and the non-ground terminal columns, and
set the right-hand side of the extra row to the source value. -/
def stampVoltage (total_nodes : Nat) (i : Nat) (M : List (List ℚ)) (b : List ℚ)
    (vs : Component) : Except SpiceError (List (List ℚ) × List ℚ) :=
  match pyfloat vs.value with
  | none => .error .typeErrorMalformed
  | some V =>
    match (if (vs.n1 : Int) ≠ 0 then
        match pyModifyMat M ((total_nodes + i : Nat) : Int) ((vs.n1 : Int) - 1)
            (fun _ => 1) with
        | Except.error e => Except.error e
        | Except.ok Ma =>
          pyModifyMat Ma ((vs.n1 : Int) - 1) ((total_nodes + i : Nat) : Int) (fun _ => 1)
      else Except.ok M) with
    | Except.error e => Except.error e
    | Except.ok M1 =>
      match (if (vs.n2 : Int) ≠ 0 then
          match pyModifyMat M1 ((total_nodes + i : Nat) : Int) ((vs.n2 : Int) - 1)
              (fun _ => -1) with
          | Except.error e => Except.error e
          | Except.ok Mb =>
            pyModifyMat Mb ((vs.n2 : Int) - 1) ((total_nodes + i : Nat) : Int) (fun _ => -1)
        else Except.ok M1) with
      | Except.error e => Except.error e
      | Except.ok M2 =>
        match pyModifyVec b ((total_nodes + i : Nat) : Int) (fun _ => V) with
        | Except.error e => Except.error e
        | Except.ok b2 => Except.ok (M2, b2)

/-- The voltage-source loop, threading the enumeration index. -/
def stampVoltages (total_nodes : Nat) (i : Nat) (M : List (List ℚ)) (b : List ℚ) :
    List Component → Except SpiceError (List (List ℚ) × List ℚ)
  | [] => .ok (M, b)
  | vs :: rest =>
    match stampVoltage total_nodes i M b vs with
    | .ok p => stampVoltages total_nodes (i + 1) p.1 p.2 rest
    | .error e => .error e

/-- `matrix_formation`: zero-initialise the
`(node_count − 1 + #voltage sources)`-square matrix and right-hand
side, then stamp resistors, current sources, and voltage sources, in
the source's loop order.  (`node_mapping` is a parameter of the Python
function but unused in its body.) -/
def matrix_formation (Resistors Voltage_sources Current_sources : List Component)
    (node_mapping : List (String × Nat)) (node_count : Nat) :
    Except SpiceError (List (List ℚ) × List ℚ) :=
  let total_nodes := node_count - 1
  let n := total_nodes + Voltage_sources.length
  let M0 := List.replicate n (List.replicate n (0 : ℚ))
  let b0 := List.replicate n (0 : ℚ)
  match stampResistors M0 Resistors with
  | .error e => .error e
  | .ok M1 =>
    match stampCurrents b0 Current_sources with
    | .error e => .error e
    | .ok b1 => stampVoltages total_nodes 0 M1 b1 Voltage_sources

/-! ### Linear solve

`np.linalg.solve` is an external library collaborator; it is modelled
as the exact rational solve: `none` (numpy's `LinAlgError`) exactly
when the matrix is singular, and otherwise the unique solution, via
Cramer's rule. -/

/-- Minor: drop the first row and column `j`. -/
def minorMat (M : List (List ℚ)) (j : Nat) : List (List ℚ) :=
  (M.drop 1).map fun row => row.eraseIdx j

/-- Determinant by first-row cofactor expansion, with the dimension as
fuel. -/
def detAux : Nat → List (List ℚ) → ℚ
  | 0, _ => 1
  | n + 1, M =>
    let row := M.headD []
    (List.range (n + 1)).foldl
      (fun acc j => acc + (-1 : ℚ) ^ j * row.getD j 0 * detAux n (minorMat M j)) 0

/-- Determinant of a square matrix given as a list of rows. -/
def det (M : List (List ℚ)) : ℚ := detAux M.length M

/-- Replace column `j` by the vector `b`. -/
def replaceCol (M : List (List ℚ)) (j : Nat) (b : List ℚ) : List (List ℚ) :=
  (M.zip b).map fun p => p.1.set j p.2

/-- Model of `np.linalg.solve` for the square systems this program
builds. -/
def npSolve (M : List (List ℚ)) (b : List ℚ) : Option (List ℚ) :=
  let d := det M
  if d = 0 then none
  else some ((List.range M.length).map fun j => det (replaceCol M j b) / d)

/-! ### Result mapping -/

/-- The voltage-dict construction loop: iterate the node map in
insertion order; ground gets exactly 0; any other node `i` is guarded
by `i <= len(solution)` and reads `solution[i-1]`.  Node names are
unique in the map, so the dict is modelled as the list of its
insertion-ordered entries. -/
def buildVoltages (node_mapping : List (String × Nat)) (sol : List ℚ) :
    List (String × ℚ) :=
  node_mapping.filterMap fun p =>
    if p.1 = "GND" then some (p.1, 0)
    else if p.2 ≤ sol.length then some (p.1, sol.getD (p.2 - 1) 0)
    else none

/-- The current-dict construction loop over voltage sources:
`current_idx = node_count + idx - 1`, guarded by
`current_idx < len(solution)`.  (`node_count ≥ 1` whenever this is
reached — the parser seeds ground — so the `Nat` subtraction agrees
with Python's arithmetic.) -/
def buildCurrents (node_count : Nat) (sol : List ℚ) (idx : Nat) :
    List Component → List (String × ℚ)
  | [] => []
  | vs :: rest =>
    let current_idx := node_count + idx - 1
    (if current_idx < sol.length then [(vs.name, sol.getD current_idx 0)] else [])
      ++ buildCurrents node_count sol (idx + 1) rest

/-- `evalSpice` on the list of lines of the input file: parse, form the
system, solve, and map the solution back to named voltages and
currents. -/
def evalSpice (lines : List String) :
    Except SpiceError (List (String × ℚ) × List (String × ℚ)) :=
  match parsing lines with
  | .error e => .error e
  | .ok (Resistors, Voltage_sources, Current_sources, node_mapping, node_count) =>
    match matrix_formation Resistors Voltage_sources Current_sources
        node_mapping node_count with
    | .error e => .error e
    | .ok (M, b) =>
      match npSolve M b with
      | none => .error .noSolution
      | some sol =>
        .ok (buildVoltages node_mapping sol,
             buildCurrents node_count sol 0 Voltage_sources)

/-! ### Plain matrix operations

Nat-indexed entry access and update on a list-of-rows matrix, used to
state what the Python-index-based stamping does. -/

/-- Entry `(i, j)` of a list-of-rows matrix (0 outside the matrix). -/
def mget (M : List (List ℚ)) (i j : Nat) : ℚ := (M.getD i []).getD j 0

/-- Write `v` at entry `(i, j)`. -/
def set2 (M : List (List ℚ)) (i j : Nat) (v : ℚ) : List (List ℚ) :=
  M.set i ((M.getD i []).set j v)

/-- Add `v` to entry `(i, j)`. -/
def add2 (M : List (List ℚ)) (i j : Nat) (v : ℚ) : List (List ℚ) :=
  set2 M i j (mget M i j + v)

/-- Subtract `v` from entry `(i, j)`. -/
def sub2 (M : List (List ℚ)) (i j : Nat) (v : ℚ) : List (List ℚ) :=
  set2 M i j (mget M i j - v)

/-- `M` is an `n × n` matrix. -/
def isShape (n : Nat) (M : List (List ℚ)) : Prop :=
  M.length = n ∧ ∀ row ∈ M, row.length = n

/-- Modelled from the spec: the resistor stamp rule of §4.2, stated on
1-indexed node ids `a`, `b` (0 = ground) with conductance `Y`.
Between distinct non-ground nodes: add `Y` to both diagonal entries
`[a-1][a-1]`, `[b-1][b-1]` and subtract `Y` from the off-diagonal
entries `[a-1][b-1]`, `[b-1][a-1]`; with exactly one ground terminal:
add `Y` to the non-ground diagonal entry only; for a self-loop on a
non-ground node: add `Y` once to that diagonal entry only. -/
def resistorSpecStamp (a b : Nat) (Y : ℚ) (M : List (List ℚ)) : List (List ℚ) :=
  if a ≠ b then
    if a = 0 then add2 M (b - 1) (b - 1) Y
    else if b = 0 then add2 M (a - 1) (a - 1) Y
    else
      sub2 (sub2 (add2 (add2 M (a - 1) (a - 1) Y) (b - 1) (b - 1) Y)
        (a - 1) (b - 1) Y) (b - 1) (a - 1) Y
  else add2 M (a - 1) (a - 1) Y

/-- Modelled from the spec: the voltage-source stamp rule of §4.2 for
extra row `extra_row`, nodes `a` (+) and `b` (−), value `V`: set
`[extra_row][a-1]` and `[a-1][extra_row]` to 1 when `a` is non-ground,
`[extra_row][b-1]` and `[b-1][extra_row]` to −1 when `b` is non-ground,
and the right-hand side at `extra_row` to `V`. -/
def voltageSpecStamp (extra_row a b : Nat) (V : ℚ) (M : List (List ℚ))
    (rhs : List ℚ) : List (List ℚ) × List ℚ :=
  let M1 := if a ≠ 0 then set2 (set2 M extra_row (a - 1) 1) (a - 1) extra_row 1 else M
  let M2 := if b ≠ 0 then set2 (set2 M1 extra_row (b - 1) (-1)) (b - 1) extra_row (-1) else M1
  (M2, rhs.set extra_row V)

/-! ### Lemmas about Python subscripts and updates -/

theorem pyIndex_coe_of_lt {n k : Nat} (h : k < n) : pyIndex n (k : Int) = some k := by
  simp [pyIndex, h]

theorem pyIndex_neg_one {n : Nat} (h : 1 ≤ n) : pyIndex n (-1) = some (n - 1) := by
  have h1 : ¬(0 ≤ (-1 : Int) ∧ (-1 : Int) < (n : Int)) := by omega
  have h2 : 0 ≤ (-1 : Int) + (n : Int) ∧ (-1 : Int) < 0 := by omega
  simp only [pyIndex, if_neg h1, if_pos h2]
  congr 1
  omega

theorem getD_set_self {α : Type} (l : List α) {i : Nat} (h : i < l.length) (a : α)
    (d : α) : (l.set i a).getD i d = a := by
  induction l generalizing i with
  | nil => simp at h
  | cons x xs ih =>
    cases i with
    | zero => simp
    | succ k =>
      simp only [List.set_cons_succ, List.getD_cons_succ]
      exact ih (by simpa using h)

theorem getD_set_ne {α : Type} (l : List α) {i j : Nat} (h : i ≠ j) (a : α)
    (d : α) : (l.set i a).getD j d = l.getD j d := by
  induction l generalizing i j with
  | nil => simp
  | cons x xs ih =>
    cases i with
    | zero =>
      cases j with
      | zero => exact absurd rfl h
      | succ m => simp
    | succ k =>
      cases j with
      | zero => simp
      | succ m =>
        simp only [List.set_cons_succ, List.getD_cons_succ]
        exact ih (by omega)

theorem pyModifyVec_ok (v : List ℚ) {k : Nat} (h : k < v.length) (f : ℚ → ℚ) :
    pyModifyVec v (k : Int) f = .ok (v.set k (f (v.getD k 0))) := by
  simp [pyModifyVec, pyIndex_coe_of_lt h]

theorem shape_row_len {n : Nat} {M : List (List ℚ)} (hM : isShape n M) {i : Nat}
    (h : i < n) : (M.getD i []).length = n := by
  obtain ⟨hlen, hrow⟩ := hM
  have hi : i < M.length := by omega
  rw [List.getD_eq_getElem M [] hi]
  exact hrow _ (List.getElem_mem hi)

theorem pyModifyMat_ok {n : Nat} {M : List (List ℚ)} (hM : isShape n M) {i j : Nat}
    (hi : i < n) (hj : j < n) (f : ℚ → ℚ) :
    pyModifyMat M (i : Int) (j : Int) f = .ok (set2 M i j (f (mget M i j))) := by
  have hi2 : i < M.length := hM.1 ▸ hi
  have hj2 : j < (M.getD i []).length := by rw [shape_row_len hM hi]; exact hj
  simp only [pyModifyMat, pyIndex_coe_of_lt hi2, pyModifyVec_ok _ hj2, set2, mget]

theorem isShape_set2 {n : Nat} {M : List (List ℚ)} (hM : isShape n M) {i j : Nat}
    (hi : i < n) (v : ℚ) : isShape n (set2 M i j v) := by
  obtain ⟨hlen, hrow⟩ := hM
  refine ⟨by simp [set2, hlen], ?_⟩
  intro row hmem
  rcases List.mem_or_eq_of_mem_set hmem with h | h
  · exact hrow _ h
  · rw [h, List.length_set]
    exact shape_row_len ⟨hlen, hrow⟩ hi

theorem isShape_add2 {n : Nat} {M : List (List ℚ)} (hM : isShape n M) {i j : Nat}
    (hi : i < n) (v : ℚ) : isShape n (add2 M i j v) := isShape_set2 hM hi _

theorem isShape_sub2 {n : Nat} {M : List (List ℚ)} (hM : isShape n M) {i j : Nat}
    (hi : i < n) (v : ℚ) : isShape n (sub2 M i j v) := isShape_set2 hM hi _

theorem mget_set2_self {n : Nat} {M : List (List ℚ)} (hM : isShape n M) {i j : Nat}
    (hi : i < n) (hj : j < n) (v : ℚ) : mget (set2 M i j v) i j = v := by
  have hi2 : i < M.length := hM.1 ▸ hi
  have hj2 : j < (M.getD i []).length := by rw [shape_row_len hM hi]; exact hj
  simp only [mget, set2]
  rw [getD_set_self M hi2, getD_set_self _ hj2]

theorem cast_sub_one {a : Nat} (h : 1 ≤ a) : (a : Int) - 1 = ((a - 1 : Nat) : Int) := by
  omega

theorem ok_bind {ε α β : Type} (a : α) (f : α → Except ε β) :
    (Except.ok a >>= f : Except ε β) = f a := rfl

theorem pure_eq_ok {ε α : Type} (a : α) : (pure a : Except ε α) = .ok a := rfl

theorem pyModifyMat_add {n : Nat} {M : List (List ℚ)} (hM : isShape n M) {i j : Nat}
    (hi : i < n) (hj : j < n) (Y : ℚ) :
    pyModifyMat M (i : Int) (j : Int) (· + Y) = .ok (add2 M i j Y) :=
  pyModifyMat_ok hM hi hj _

theorem pyModifyMat_sub {n : Nat} {M : List (List ℚ)} (hM : isShape n M) {i j : Nat}
    (hi : i < n) (hj : j < n) (Y : ℚ) :
    pyModifyMat M (i : Int) (j : Int) (· - Y) = .ok (sub2 M i j Y) :=
  pyModifyMat_ok hM hi hj _

theorem pyModifyMat_setv {n : Nat} {M : List (List ℚ)} (hM : isShape n M) {i j : Nat}
    (hi : i < n) (hj : j < n) (c : ℚ) :
    pyModifyMat M (i : Int) (j : Int) (fun _ => c) = .ok (set2 M i j c) :=
  pyModifyMat_ok hM hi hj _

theorem pyModifyMat_add_last {n : Nat} {M : List (List ℚ)} (hM : isShape n M)
    (hn : 1 ≤ n) (Y : ℚ) :
    pyModifyMat M (-1) (-1) (· + Y) = .ok (add2 M (n - 1) (n - 1) Y) := by
  have hA : n - 1 < n := by omega
  have hrow : pyModifyVec (M.getD (n - 1) []) (-1) (· + Y) =
      .ok ((M.getD (n - 1) []).set (n - 1) ((M.getD (n - 1) []).getD (n - 1) 0 + Y)) := by
    simp only [pyModifyVec, shape_row_len hM hA, pyIndex_neg_one hn]
  simp only [pyModifyMat, hM.1, pyIndex_neg_one hn, hrow]
  rfl

theorem stampResistor_ok_both {n : Nat} {M : List (List ℚ)} (hM : isShape n M)
    {r : Component} {v : ℚ} (hv : pyfloat r.value = some v) (hv0 : v ≠ 0)
    (hab : r.n1 ≠ r.n2) (ha1 : 1 ≤ r.n1) (ha2 : r.n1 ≤ n) (hb1 : 1 ≤ r.n2)
    (hb2 : r.n2 ≤ n) :
    stampResistor M r =
      .ok (sub2 (sub2 (add2 (add2 M (r.n1 - 1) (r.n1 - 1) (1 / v))
        (r.n2 - 1) (r.n2 - 1) (1 / v)) (r.n1 - 1) (r.n2 - 1) (1 / v))
        (r.n2 - 1) (r.n1 - 1) (1 / v)) := by
  have hA : r.n1 - 1 < n := by omega
  have hB : r.n2 - 1 < n := by omega
  have hab2 : ((r.n1 : Int)) ≠ ((r.n2 : Int)) := by exact_mod_cast hab
  have ha0 : ((r.n1 : Int)) ≠ 0 := by omega
  have hb0 : ((r.n2 : Int)) ≠ 0 := by omega
  have s1 : isShape n (add2 M (r.n1 - 1) (r.n1 - 1) (1 / v)) := isShape_add2 hM hA _
  have s2 : isShape n (add2 (add2 M (r.n1 - 1) (r.n1 - 1) (1 / v))
      (r.n2 - 1) (r.n2 - 1) (1 / v)) := isShape_add2 s1 hB _
  have s3 : isShape n (sub2 (add2 (add2 M (r.n1 - 1) (r.n1 - 1) (1 / v))
      (r.n2 - 1) (r.n2 - 1) (1 / v)) (r.n1 - 1) (r.n2 - 1) (1 / v)) :=
    isShape_sub2 s2 hA _
  simp only [stampResistor, hv, if_neg hv0, if_pos hab2, if_pos ha0, if_pos hb0,
    if_pos (And.intro ha0 hb0), cast_sub_one ha1, cast_sub_one hb1,
    pyModifyMat_add hM hA hA, ok_bind, pyModifyMat_add s1 hB hB,
    pyModifyMat_sub s2 hA hB, ok_bind, pyModifyMat_sub s3 hB hA]

theorem stampResistor_ok_ground_left {n : Nat} {M : List (List ℚ)} (hM : isShape n M)
    {r : Component} {v : ℚ} (hv : pyfloat r.value = some v) (hv0 : v ≠ 0)
    (ha : r.n1 = 0) (hb1 : 1 ≤ r.n2) (hb2 : r.n2 ≤ n) :
    stampResistor M r = .ok (add2 M (r.n2 - 1) (r.n2 - 1) (1 / v)) := by
  have hB : r.n2 - 1 < n := by omega
  have hab2 : ((r.n1 : Int)) ≠ ((r.n2 : Int)) := by omega
  have ha0 : ¬((r.n1 : Int)) ≠ 0 := by omega
  have hb0 : ((r.n2 : Int)) ≠ 0 := by omega
  have hcon : ¬(((r.n1 : Int)) ≠ 0 ∧ ((r.n2 : Int)) ≠ 0) := by omega
  simp only [stampResistor, hv, if_neg hv0, if_pos hab2, if_neg ha0, if_pos hb0,
    if_neg hcon, cast_sub_one hb1, pure_eq_ok, ok_bind, pyModifyMat_add hM hB hB]

theorem stampResistor_ok_ground_right {n : Nat} {M : List (List ℚ)} (hM : isShape n M)
    {r : Component} {v : ℚ} (hv : pyfloat r.value = some v) (hv0 : v ≠ 0)
    (ha1 : 1 ≤ r.n1) (ha2 : r.n1 ≤ n) (hb : r.n2 = 0) :
    stampResistor M r = .ok (add2 M (r.n1 - 1) (r.n1 - 1) (1 / v)) := by
  have hA : r.n1 - 1 < n := by omega
  have hab2 : ((r.n1 : Int)) ≠ ((r.n2 : Int)) := by omega
  have ha0 : ((r.n1 : Int)) ≠ 0 := by omega
  have hb0 : ¬((r.n2 : Int)) ≠ 0 := by omega
  have hcon : ¬(((r.n1 : Int)) ≠ 0 ∧ ((r.n2 : Int)) ≠ 0) := by omega
  simp only [stampResistor, hv, if_neg hv0, if_pos hab2, if_pos ha0, if_neg hb0,
    if_neg hcon, cast_sub_one ha1, pure_eq_ok, ok_bind, pyModifyMat_add hM hA hA]

theorem stampResistor_ok_self {n : Nat} {M : List (List ℚ)} (hM : isShape n M)
    {r : Component} {v : ℚ} (hv : pyfloat r.value = some v) (hv0 : v ≠ 0)
    (hab : r.n1 = r.n2) (ha1 : 1 ≤ r.n1) (ha2 : r.n1 ≤ n) :
    stampResistor M r = .ok (add2 M (r.n1 - 1) (r.n1 - 1) (1 / v)) := by
  have hA : r.n1 - 1 < n := by omega
  have hab2 : ¬((r.n1 : Int)) ≠ ((r.n2 : Int)) := by omega
  simp only [stampResistor, hv, if_neg hv0, if_neg hab2, cast_sub_one ha1,
    pyModifyMat_add hM hA hA]

theorem stampResistor_ok_both_ground {n : Nat} {M : List (List ℚ)} (hM : isShape n M)
    (hn : 1 ≤ n) {r : Component} {v : ℚ} (hv : pyfloat r.value = some v) (hv0 : v ≠ 0)
    (ha : r.n1 = 0) (hb : r.n2 = 0) :
    stampResistor M r = .ok (add2 M (n - 1) (n - 1) (1 / v)) := by
  have hab2 : ¬((r.n1 : Int)) ≠ ((r.n2 : Int)) := by omega
  have hcast : ((r.n1 : Int)) - 1 = -1 := by omega
  simp only [stampResistor, hv, if_neg hv0, if_neg hab2, hcast,
    pyModifyMat_add_last hM hn]

theorem mget_add2_self {n : Nat} {M : List (List ℚ)} (hM : isShape n M) {i j : Nat}
    (hi : i < n) (hj : j < n) (v : ℚ) :
    mget (add2 M i j v) i j = mget M i j + v := mget_set2_self hM hi hj _

theorem pyIndex_some_lt {n : Nat} {i : Int} {k : Nat} (h : pyIndex n i = some k) :
    k < n := by
  unfold pyIndex at h
  split at h
  · injection h with h
    omega
  · split at h
    · injection h with h
      omega
    · exact absurd h (by simp)

theorem bind_ok_iff {ε α β : Type} {x : Except ε α} {f : α → Except ε β} {b : β} :
    (x >>= f) = .ok b ↔ ∃ a, x = .ok a ∧ f a = .ok b := by
  cases x with
  | ok a => simp [ok_bind]
  | error e =>
    constructor
    · intro h
      exact absurd h (by simp [Bind.bind, Except.bind])
    · rintro ⟨a, ha, h⟩
      exact absurd ha (by simp)

theorem pyModifyVec_len {v : List ℚ} {i : Int} {f : ℚ → ℚ} {v' : List ℚ}
    (h : pyModifyVec v i f = .ok v') : v'.length = v.length := by
  unfold pyModifyVec at h
  split at h
  · injection h with h
    rw [← h, List.length_set]
  · exact absurd h (by simp)

theorem pyModifyMat_shape {n : Nat} {M : List (List ℚ)} {i j : Int} {f : ℚ → ℚ}
    {M' : List (List ℚ)} (hM : isShape n M) (h : pyModifyMat M i j f = .ok M') :
    isShape n M' := by
  unfold pyModifyMat at h
  split at h
  case h_2 => exact absurd h (by simp)
  case h_1 k hk =>
    split at h
    case h_2 => exact absurd h (by simp)
    case h_1 row hrow =>
      injection h with h
      subst h
      have hkn : k < n := hM.1 ▸ pyIndex_some_lt hk
      refine ⟨by rw [List.length_set]; exact hM.1, ?_⟩
      intro r hr
      rcases List.mem_or_eq_of_mem_set hr with hmem | heq
      · exact hM.2 _ hmem
      · rw [heq, pyModifyVec_len hrow]
        exact shape_row_len hM hkn

theorem ifModifyMat_shape {n : Nat} {M M' : List (List ℚ)} {c : Prop} [Decidable c]
    {i j : Int} {f : ℚ → ℚ} (hM : isShape n M)
    (h : (if c then pyModifyMat M i j f else .ok M) = .ok M') : isShape n M' := by
  split at h
  · exact pyModifyMat_shape hM h
  · injection h with h
    exact h ▸ hM

theorem stampResistor_shape {n : Nat} {M M' : List (List ℚ)} {r : Component}
    (hM : isShape n M) (h : stampResistor M r = .ok M') : isShape n M' := by
  unfold stampResistor at h
  split at h
  case h_1 => exact absurd h (by simp)
  case h_2 v hv =>
    split at h
    · exact absurd h (by simp)
    · split at h
      · split at h
        case h_1 e he => exact absurd h (by simp)
        case h_2 M1 h1 =>
          have s1 : isShape n M1 := ifModifyMat_shape hM h1
          split at h
          case h_1 e he => exact absurd h (by simp)
          case h_2 M2 h2 =>
            have s2 : isShape n M2 := ifModifyMat_shape s1 h2
            split at h
            · split at h
              case h_1 e he => exact absurd h (by simp)
              case h_2 M3 h3 => exact pyModifyMat_shape (pyModifyMat_shape s2 h3) h
            · injection h with h
              exact h ▸ s2
      · exact pyModifyMat_shape hM h

theorem stampResistors_shape {n : Nat} :
    ∀ (rs : List Component) (M M' : List (List ℚ)), isShape n M →
      stampResistors M rs = .ok M' → isShape n M'
  | [], M, M', hM, h => by
    unfold stampResistors at h
    injection h with h
    exact h ▸ hM
  | r :: rs, M, M', hM, h => by
    unfold stampResistors at h
    split at h
    case h_1 M2 h2 => exact stampResistors_shape rs M2 M' (stampResistor_shape hM h2) h
    case h_2 => exact absurd h (by simp)

theorem ifModifyVec_len {b b' : List ℚ} {c : Prop} [Decidable c] {i : Int}
    {f : ℚ → ℚ} (h : (if c then pyModifyVec b i f else .ok b) = .ok b') :
    b'.length = b.length := by
  split at h
  · exact pyModifyVec_len h
  · injection h with h
    rw [← h]

theorem stampCurrent_len {b b' : List ℚ} {c : Component}
    (h : stampCurrent b c = .ok b') : b'.length = b.length := by
  unfold stampCurrent at h
  split at h
  case h_1 => exact absurd h (by simp)
  case h_2 v hv =>
    split at h
    case h_1 e he => exact absurd h (by simp)
    case h_2 b1 h1 =>
      have l1 : b1.length = b.length := ifModifyVec_len h1
      split at h
      · rw [pyModifyVec_len h, l1]
      · injection h with h
        rw [← h, l1]

theorem stampCurrents_len :
    ∀ (cs : List Component) (b b' : List ℚ), stampCurrents b cs = .ok b' →
      b'.length = b.length
  | [], b, b', h => by
    unfold stampCurrents at h
    injection h with h
    rw [h]
  | c :: cs, b, b', h => by
    unfold stampCurrents at h
    split at h
    case h_1 b2 h2 => rw [stampCurrents_len cs b2 b' h, stampCurrent_len h2]
    case h_2 => exact absurd h (by simp)

theorem ifModifyMat2_shape {n : Nat} {M M' : List (List ℚ)} {c : Prop} [Decidable c]
    {i j i2 j2 : Int} {f f2 : ℚ → ℚ} (hM : isShape n M)
    (h : (if c then
        match pyModifyMat M i j f with
        | Except.error e => Except.error e
        | Except.ok Ma => pyModifyMat Ma i2 j2 f2
      else Except.ok M) = .ok M') : isShape n M' := by
  split at h
  · split at h
    case h_1 e he => exact absurd h (by simp)
    case h_2 Ma ha => exact pyModifyMat_shape (pyModifyMat_shape hM ha) h
  · injection h with h
    exact h ▸ hM

theorem stampVoltage_shape {n : Nat} {t i : Nat} {M : List (List ℚ)} {b : List ℚ}
    {vs : Component} {p : List (List ℚ) × List ℚ} (hM : isShape n M)
    (hb : b.length = n) (h : stampVoltage t i M b vs = .ok p) :
    isShape n p.1 ∧ p.2.length = n := by
  unfold stampVoltage at h
  split at h
  case h_1 => exact absurd h (by simp)
  case h_2 v hv =>
    split at h
    case h_1 e he => exact absurd h (by simp)
    case h_2 M1 h1 =>
      have s1 : isShape n M1 := ifModifyMat2_shape hM h1
      split at h
      case h_1 e he => exact absurd h (by simp)
      case h_2 M2 h2 =>
        have s2 : isShape n M2 := ifModifyMat2_shape s1 h2
        split at h
        case h_1 e he => exact absurd h (by simp)
        case h_2 b2 hb2 =>
          injection h with h
          rw [← h]
          exact ⟨s2, by rw [pyModifyVec_len hb2, hb]⟩

theorem stampVoltages_shape {n : Nat} {t : Nat} :
    ∀ (vss : List Component) (i : Nat) (M : List (List ℚ)) (b : List ℚ)
      (p : List (List ℚ) × List ℚ), isShape n M → b.length = n →
      stampVoltages t i M b vss = .ok p → isShape n p.1 ∧ p.2.length = n
  | [], i, M, b, p, hM, hb, h => by
    unfold stampVoltages at h
    injection h with h
    rw [← h]
    exact ⟨hM, hb⟩
  | vs :: rest, i, M, b, p, hM, hb, h => by
    unfold stampVoltages at h
    split at h
    case h_1 q hq =>
      obtain ⟨s1, l1⟩ := stampVoltage_shape hM hb hq
      exact stampVoltages_shape rest (i + 1) q.1 q.2 p s1 l1 h
    case h_2 => exact absurd h (by simp)

theorem isShape_replicate (n : Nat) :
    isShape n (List.replicate n (List.replicate n (0 : ℚ))) := by
  refine ⟨List.length_replicate _ _, ?_⟩
  intro row hrow
  rw [List.eq_of_mem_replicate hrow]
  exact List.length_replicate _ _

theorem matrix_formation_shape {Rs Vs Is : List Component}
    {nm : List (String × Nat)} {nc : Nat} {M : List (List ℚ)} {b : List ℚ}
    (h : matrix_formation Rs Vs Is nm nc = .ok (M, b)) :
    isShape ((nc - 1) + Vs.length) M ∧ b.length = (nc - 1) + Vs.length := by
  simp only [matrix_formation] at h
  split at h
  case h_1 => exact absurd h (by simp)
  case h_2 M1 h1 =>
    split at h
    case h_1 => exact absurd h (by simp)
    case h_2 b1 hb1 =>
      have s1 : isShape ((nc - 1) + Vs.length) M1 :=
        stampResistors_shape Rs _ M1 (isShape_replicate _) h1
      have l1 : b1.length = (nc - 1) + Vs.length := by
        rw [stampCurrents_len Is _ b1 hb1, List.length_replicate]
      exact stampVoltages_shape Vs 0 M1 b1 (M, b) s1 l1 h

theorem pyModifyMat_setv2 {n : Nat} {M : List (List ℚ)} (hM : isShape n M)
    {i j : Nat} (hi : i < n) (hj : j < n) (c : ℚ) :
    pyModifyMat M (i : Int) (j : Int) (fun _ => c) = .ok (set2 M i j c) :=
  pyModifyMat_ok hM hi hj _

theorem pyModifyVec_setv {v : List ℚ} {k : Nat} (h : k < v.length) (c : ℚ) :
    pyModifyVec v (k : Int) (fun _ => c) = .ok (v.set k c) :=
  pyModifyVec_ok v h _

theorem matchModify2_setv {n : Nat} {M : List (List ℚ)} (hM : isShape n M)
    {row col : Nat} (hrow : row < n) (hcol : col < n) (c : ℚ) :
    (match pyModifyMat M (row : Int) (col : Int) (fun _ => c) with
      | Except.error e => Except.error e
      | Except.ok Ma => pyModifyMat Ma (col : Int) (row : Int) (fun _ => c)) =
      .ok (set2 (set2 M row col c) col row c) := by
  rw [pyModifyMat_setv2 hM hrow hcol]
  exact pyModifyMat_setv2 (isShape_set2 hM hrow _) hcol hrow c

/-- C7: for every resistor with conductance `Y = 1/resistance` and valid
node indices not both ground, `stampResistor` performs exactly the
resistor stamp described in the spec (`resistorSpecStamp`): distinct
non-ground terminals get `+Y` on both diagonal entries and `−Y` on both
off-diagonal entries; exactly one ground terminal gets `+Y` on the
non-ground diagonal entry only; a self-loop on a non-ground node gets
`+Y` once on that diagonal entry only. -/
theorem claim_C7 {n : Nat} {M : List (List ℚ)} (hM : isShape n M) (r : Component)
    {v : ℚ} (hv : pyfloat r.value = some v) (hv0 : v ≠ 0) (ha : r.n1 ≤ n)
    (hb : r.n2 ≤ n) (hg : ¬(r.n1 = 0 ∧ r.n2 = 0)) :
    stampResistor M r = .ok (resistorSpecStamp r.n1 r.n2 (1 / v) M) := by
  unfold resistorSpecStamp
  by_cases hab : r.n1 = r.n2
  · rw [if_neg (not_not_intro hab)]
    have ha1 : 1 ≤ r.n1 := by omega
    exact stampResistor_ok_self hM hv hv0 hab ha1 ha
  · rw [if_pos hab]
    by_cases ha0 : r.n1 = 0
    · rw [if_pos ha0]
      have hb1 : 1 ≤ r.n2 := by omega
      exact stampResistor_ok_ground_left hM hv hv0 ha0 hb1 hb
    · rw [if_neg ha0]
      by_cases hb0 : r.n2 = 0
      · rw [if_pos hb0]
        have ha1 : 1 ≤ r.n1 := by omega
        exact stampResistor_ok_ground_right hM hv hv0 ha1 ha hb0
      · rw [if_neg hb0]
        exact stampResistor_ok_both hM hv hv0 hab (by omega) ha (by omega) hb

/-- Witness for C7: a 5 Ω resistor between nodes 1 and 2 of a 2-node
system is stamped exactly per the spec rule. -/
theorem claim_C7_witness :
    stampResistor [[0, 0], [0, 0]] ⟨"R1", 1, 2, "5"⟩ =
      .ok (resistorSpecStamp 1 2 (1 / 5) [[0, 0], [0, 0]]) :=
  claim_C7 (n := 2) (M := [[0, 0], [0, 0]]) ⟨rfl, by decide⟩ ⟨"R1", 1, 2, "5"⟩
    (v := 5) (by rfl) (by decide) (by decide) (by decide) (by decide)

/-- C9 (amended): a resistor with both terminals resolving to ground is
stamped, via Python index −1, onto the last diagonal entry of the
matrix, which changes that entry — provided the matrix dimension is at
least 1; the 0-dimensional case instead raises `IndexError` (see the
counterexample). -/
theorem claim_C9 {n : Nat} {M : List (List ℚ)} (hM : isShape n M) (hn : 1 ≤ n)
    (r : Component) {v : ℚ} (hv : pyfloat r.value = some v) (hv0 : v ≠ 0)
    (ha : r.n1 = 0) (hb : r.n2 = 0) :
    stampResistor M r = .ok (add2 M (n - 1) (n - 1) (1 / v)) ∧
      mget (add2 M (n - 1) (n - 1) (1 / v)) (n - 1) (n - 1) ≠ mget M (n - 1) (n - 1) := by
  have hA : n - 1 < n := by omega
  refine ⟨stampResistor_ok_both_ground hM hn hv hv0 ha hb, ?_⟩
  rw [Ne, mget_add2_self hM hA hA, add_right_eq_self]
  exact one_div_ne_zero hv0

/-- Witness for C9: a ground-to-ground 2 Ω resistor on a 1×1 system adds
its conductance to the single (last) diagonal entry. -/
theorem claim_C9_witness :
    stampResistor [[(0 : ℚ)]] ⟨"R1", 0, 0, "2"⟩ = .ok (add2 [[(0 : ℚ)]] 0 0 (1 / 2)) ∧
      mget (add2 [[(0 : ℚ)]] 0 0 (1 / 2)) 0 0 ≠ mget [[(0 : ℚ)]] 0 0 :=
  claim_C9 (n := 1) (M := [[(0 : ℚ)]]) ⟨rfl, by decide⟩ (by decide) ⟨"R1", 0, 0, "2"⟩
    (v := 2) (by rfl) (by decide) rfl rfl

/-- C9 counterexample: for the circuit `R1 GND GND 5` alone, the matrix
is 0×0, so `matrix_formation` does not add the conductance anywhere —
`Matrix[-1]` raises `IndexError` — refuting the claim's universal
statement. -/
theorem claim_C9_counterexample :
    matrix_formation [⟨"R1", 0, 0, "5"⟩] [] [] [("GND", 0)] 1 = .error .indexError ∧
      evalSpice [".circuit", "R1 GND GND 5", ".end"] = .error .indexError :=
  ⟨by rfl, by rfl⟩

/-- C8: the assembled coefficient matrix is square of dimension
`(node_count − 1) + #voltage sources` with a right-hand side of the
same length, and the `i`-th voltage source between valid nodes `a`, `b`
is stamped exactly per the spec rule (`voltageSpecStamp`) at extra row
`total_nodes + i`. -/
theorem claim_C8 :
    (∀ (Rs Vs Is : List Component) (nm : List (String × Nat)) (nc : Nat)
        (M : List (List ℚ)) (b : List ℚ),
        matrix_formation Rs Vs Is nm nc = .ok (M, b) →
        M.length = (nc - 1) + Vs.length ∧
          (∀ row ∈ M, row.length = (nc - 1) + Vs.length) ∧
          b.length = (nc - 1) + Vs.length) ∧
    (∀ (n0 k i : Nat) (M : List (List ℚ)) (b : List ℚ) (vs : Component) (V : ℚ),
        isShape (n0 + k) M → b.length = n0 + k → pyfloat vs.value = some V →
        i < k → vs.n1 ≤ n0 → vs.n2 ≤ n0 →
        stampVoltage n0 i M b vs = .ok (voltageSpecStamp (n0 + i) vs.n1 vs.n2 V M b)) := by
  constructor
  · intro Rs Vs Is nm nc M b h
    obtain ⟨⟨h1, h2⟩, h3⟩ := matrix_formation_shape h
    exact ⟨h1, h2, h3⟩
  · intro n0 k i M b vs V hM hb hV hik ha hb2
    have hrow : n0 + i < n0 + k := by omega
    have hbrow : n0 + i < b.length := by omega
    by_cases ha0 : vs.n1 = 0
    · have hA : ¬((vs.n1 : Int) ≠ 0) := by omega
      have hA2 : ¬(vs.n1 ≠ 0) := by omega
      by_cases hb0 : vs.n2 = 0
      · have hB : ¬((vs.n2 : Int) ≠ 0) := by omega
        have hB2 : ¬(vs.n2 ≠ 0) := by omega
        simp only [stampVoltage, voltageSpecStamp, hV, if_neg hA, if_neg hA2,
          if_neg hB, if_neg hB2, pyModifyVec_setv hbrow]
      · have hB : ((vs.n2 : Int)) ≠ 0 := by omega
        have hcol : vs.n2 - 1 < n0 + k := by omega
        simp only [stampVoltage, voltageSpecStamp, hV, if_neg hA, if_neg hA2,
          if_pos hB, if_pos hb0, cast_sub_one (by omega : 1 ≤ vs.n2),
          matchModify2_setv hM hrow hcol, pyModifyVec_setv hbrow]
    · have hA : ((vs.n1 : Int)) ≠ 0 := by omega
      have hcol : vs.n1 - 1 < n0 + k := by omega
      have s2 : isShape (n0 + k)
          (set2 (set2 M (n0 + i) (vs.n1 - 1) 1) (vs.n1 - 1) (n0 + i) 1) :=
        isShape_set2 (isShape_set2 hM hrow _) hcol _
      by_cases hb0 : vs.n2 = 0
      · have hB : ¬((vs.n2 : Int) ≠ 0) := by omega
        have hB2 : ¬(vs.n2 ≠ 0) := by omega
        simp only [stampVoltage, voltageSpecStamp, hV, if_pos hA, if_pos ha0,
          if_neg hB, if_neg hB2, cast_sub_one (by omega : 1 ≤ vs.n1),
          matchModify2_setv hM hrow hcol, pyModifyVec_setv hbrow]
      · have hB : ((vs.n2 : Int)) ≠ 0 := by omega
        have hcol2 : vs.n2 - 1 < n0 + k := by omega
        simp only [stampVoltage, voltageSpecStamp, hV, if_pos hA, if_pos ha0,
          if_pos hB, if_pos hb0, cast_sub_one (by omega : 1 ≤ vs.n1),
          cast_sub_one (by omega : 1 ≤ vs.n2), matchModify2_setv hM hrow hcol,
          matchModify2_setv s2 hrow hcol2, pyModifyVec_setv hbrow]

/-- Witness for C8: a one-node, one-source system has a 2×2 matrix, and
stamping the source `V1 1 GND · 10` writes the ±1 couplings and the
right-hand side per the spec rule. -/
theorem claim_C8_witness :
    (([[(0 : ℚ), 1], [1, 0]] : List (List ℚ)).length = 2 ∧
      (∀ row ∈ ([[(0 : ℚ), 1], [1, 0]] : List (List ℚ)), row.length = 2) ∧
      ([(0 : ℚ), 10] : List ℚ).length = 2) ∧
    stampVoltage 1 0 [[(0 : ℚ), 0], [0, 0]] [0, 0] ⟨"V1", 1, 0, "10"⟩ =
      .ok (voltageSpecStamp 1 1 0 10 [[(0 : ℚ), 0], [0, 0]] [0, 0]) := by
  constructor
  · exact claim_C8.1 [] [⟨"V1", 1, 0, "10"⟩] [] [("GND", 0), ("1", 1)] 2
      [[0, 1], [1, 0]] [0, 10] (by rfl)
  · exact claim_C8.2 1 1 0 [[0, 0], [0, 0]] [0, 0] ⟨"V1", 1, 0, "10"⟩ 10
      ⟨rfl, by decide⟩ rfl (by rfl) (by decide) (by decide) (by decide)

/-! ### Claims about parsing and end-to-end behaviour -/

theorem ne_empty_isEmpty_false {w : String} (h : w ≠ "") : w.data.isEmpty = false := by
  cases w with
  | mk d =>
    cases d with
    | nil => exact absurd rfl h
    | cons c cs => rfl

/-- Whether an `Except` computation succeeded. -/
def isOk {ε α : Type} : Except ε α → Bool
  | Except.ok _ => true
  | Except.error _ => false

theorem data_ne_nil {w : String} (h : w ≠ "") : w.data ≠ [] := by
  cases w with
  | mk d =>
    cases d with
    | nil => exact absurd rfl h
    | cons c cs => simp

/-- C1 counterexample: on the exact netlist `.circuit / V1 1 0 10 /
R1 1 0 5 / .end`, `evalSpice` does not succeed: the `V1` line has only
four tokens while a voltage source needs five (the value is token 5),
so parsing raises the insufficient-data error. -/
theorem claim_C1_counterexample :
    evalSpice [".circuit", "V1 1 0 10", "R1 1 0 5", ".end"] =
      .error .insufficientVoltage := rfl

/-- C1 (amended): the spec's end-to-end example netlist fails with the
insufficient-data (voltage source) error, because `V1 1 0 10` has only
four tokens and the value of a voltage source is token 5.  Even with
the line in the five-token form `V1 1 0 dc 10`, the evaluation does not
return voltages: node `0` is an ordinary node (only `GND` is ground),
so the source/resistor loop floats relative to ground, the MNA matrix
is singular, and `evalSpice` fails with the no-solution error. -/
theorem claim_C1 :
    evalSpice [".circuit", "V1 1 0 10", "R1 1 0 5", ".end"] =
      .error .insufficientVoltage ∧
    evalSpice [".circuit", "V1 1 0 dc 10", "R1 1 0 5", ".end"] =
      .error .noSolution := by
  refine ⟨rfl, ?_⟩
  have hf5 : pyfloat "5" = some 5 := rfl
  have hf10 : pyfloat "10" = some 10 := rfl
  have h1 : parsing [".circuit", "V1 1 0 dc 10", "R1 1 0 5", ".end"] =
      .ok ([⟨"R1", 1, 2, "5"⟩], [⟨"V1", 1, 2, "10"⟩], [],
        [("GND", 0), ("1", 1), ("0", 2)], 3) := rfl
  have h2 : matrix_formation [⟨"R1", 1, 2, "5"⟩] [⟨"V1", 1, 2, "10"⟩] []
      [("GND", 0), ("1", 1), ("0", 2)] 3 =
      .ok ([[1/5, -(1/5), 1], [-(1/5), 1/5, -1], [1, -1, 0]], [0, 0, 10]) := by
    norm_num [matrix_formation, stampResistors, stampResistor, stampCurrents,
      stampVoltages, stampVoltage, pyModifyMat, pyModifyVec, pyIndex, hf5, hf10,
      List.set, List.getD, List.replicate, Int.toNat]
  have h3 : det [[1/5, -(1/5), 1], [-(1/5), 1/5, -1], [1, -1, 0]] = (0 : ℚ) := by
    norm_num [det, detAux, minorMat, List.range_succ, List.getD, List.eraseIdx]
  have h4 : npSolve [[1/5, -(1/5), 1], [-(1/5), 1/5, -1], [1, -1, 0]] [0, 0, 10] =
      none := by
    simp only [npSolve, h3]
    norm_num
  simp only [evalSpice, h1, h2, h4]

/-- C2: a resistor whose value token parses to zero makes
`matrix_formation` raise `TypeError("Malformed circuit file")` — not
`ZeroDivisionError`: the guard `float(Resistor["value"]==0)` compares
the string with the int 0 (always `False`), and the bare `except:`
around `1/float(value)` converts the actual division error into
`TypeError`.  A non-numeric value raises the same `TypeError`, as the
claim states. -/
theorem claim_C2 :
    (∀ (M : List (List ℚ)) (r : Component), pyfloat r.value = some 0 →
      stampResistor M r = .error .typeErrorMalformed) ∧
    (∀ (M : List (List ℚ)) (r : Component), pyfloat r.value = none →
      stampResistor M r = .error .typeErrorMalformed) ∧
    evalSpice [".circuit", "R1 1 GND 0", ".end"] = .error .typeErrorMalformed ∧
    evalSpice [".circuit", "R1 1 GND abc", ".end"] = .error .typeErrorMalformed := by
  refine ⟨?_, ?_, rfl, rfl⟩
  · intro M r h
    simp [stampResistor, h]
  · intro M r h
    simp [stampResistor, h]

/-- Witness for C2's universally quantified parts at concrete
resistors with value tokens `0` and `abc`. -/
theorem claim_C2_witness :
    stampResistor [] ⟨"R1", 1, 0, "0"⟩ = .error .typeErrorMalformed ∧
      stampResistor [] ⟨"R1", 1, 0, "abc"⟩ = .error .typeErrorMalformed :=
  ⟨claim_C2.1 [] ⟨"R1", 1, 0, "0"⟩ rfl, claim_C2.2.1 [] ⟨"R1", 1, 0, "abc"⟩ rfl⟩

/-- C3 counterexample: inside the block, the two-token line `R1 1`
fails with `IndexError` (from the unconditional read of `words[2]`),
not with the insufficient-data `ValueError` the claim asserts. -/
theorem claim_C3_counterexample :
    parsing [".circuit", "R1 1", ".end"] = .error .indexError := rfl

/-- C3 (amended): element lines with at least three tokens but fewer
than required (4 for `R`, 5 for `V`/`I`) fail with the kind-scoped
insufficient-data error; lines with only one or two tokens instead
fail with `IndexError` when `words[1]`/`words[2]` are read, before any
length check. -/
theorem claim_C3 :
    (∀ (s : ParseState) (ws : List String) (w : String), ws.headD "" = w → w ≠ "" →
      (w.data.headD ' ').toUpper = 'R' → ws.length = 3 → ¬ w ∈ s.resistorNames →
      processWords s ws = .error .insufficientResistor) ∧
    (∀ (s : ParseState) (ws : List String) (w : String), ws.headD "" = w → w ≠ "" →
      (w.data.headD ' ').toUpper = 'V' → 3 ≤ ws.length → ws.length < 5 →
      ¬ w ∈ s.voltageSourceNames → processWords s ws = .error .insufficientVoltage) ∧
    (∀ (s : ParseState) (ws : List String) (w : String), ws.headD "" = w → w ≠ "" →
      (w.data.headD ' ').toUpper = 'I' → 3 ≤ ws.length → ws.length < 5 →
      ¬ w ∈ s.currentSourceNames → processWords s ws = .error .insufficientCurrent) ∧
    (∀ (s : ParseState) (ws : List String), 1 ≤ ws.length → ws.length < 3 →
      ws.headD "" ≠ "" → processWords s ws = .error .indexError) := by
  refine ⟨?_, ?_, ?_, ?_⟩
  · intro s ws w hw hne hR hlen hmem
    subst hw
    simp only [List.headD_eq_head?] at hne hR hmem
    have c1 : ws.length > 0 := by omega
    have c3 : ¬(ws.length < 3) := by omega
    have c4 : ws.length < 4 := by omega
    simp [processWords, data_ne_nil hne, hR, c1, c3, c4, hmem]
  · intro s ws w hw hne hV hlen hlen5 hmem
    subst hw
    simp only [List.headD_eq_head?] at hne hV hmem
    have c1 : ws.length > 0 := by omega
    have c3 : ¬(ws.length < 3) := by omega
    simp [processWords, data_ne_nil hne, hV, c1, c3, hlen5, hmem]
  · intro s ws w hw hne hI hlen hlen5 hmem
    subst hw
    simp only [List.headD_eq_head?] at hne hI hmem
    have c1 : ws.length > 0 := by omega
    have c3 : ¬(ws.length < 3) := by omega
    simp [processWords, data_ne_nil hne, hI, c1, c3, hlen5, hmem]
  · intro s ws hlen1 hlen3 hne
    simp only [List.headD_eq_head?] at hne
    have c1 : ws.length > 0 := by omega
    simp [processWords, data_ne_nil hne, c1, hlen3]

/-- Witness for C3 at concrete short lines of each kind. -/
theorem claim_C3_witness :
    processWords initState ["R1", "1", "0"] = .error .insufficientResistor ∧
    processWords initState ["V1", "1", "0", "dc"] = .error .insufficientVoltage ∧
    processWords initState ["I1", "1", "0", "dc"] = .error .insufficientCurrent ∧
    processWords initState ["R1", "1"] = .error .indexError :=
  ⟨claim_C3.1 initState ["R1", "1", "0"] "R1" rfl (by decide) (by decide) rfl
      (by decide),
   claim_C3.2.1 initState ["V1", "1", "0", "dc"] "V1" rfl (by decide) (by decide)
      (by decide) (by decide) (by decide),
   claim_C3.2.2.1 initState ["I1", "1", "0", "dc"] "I1" rfl (by decide) (by decide)
      (by decide) (by decide) (by decide),
   claim_C3.2.2.2 initState ["R1", "1"] (by decide) (by decide) (by decide)⟩

/-- C6: two resistors sharing the name token `R1` are rejected with the
duplicate-resistor error, while the duplicate check for each kind
consults only that kind's name set: a `V` line (resp. `R` line) whose
name token already occurs in both other kinds' name sets still parses
successfully as long as it is absent from its own kind's set. -/
theorem claim_C6 :
    parsing [".circuit", "R1 1 GND 5", "R1 2 GND 7", ".end"] =
      .error .duplicateResistor ∧
    (∀ (s : ParseState) (ws : List String) (w : String), ws.headD "" = w → w ≠ "" →
      (w.data.headD ' ').toUpper = 'V' → 5 ≤ ws.length →
      w ∈ s.resistorNames → w ∈ s.currentSourceNames → ¬ w ∈ s.voltageSourceNames →
      isOk (processWords s ws) = true) ∧
    (∀ (s : ParseState) (ws : List String) (w : String), ws.headD "" = w → w ≠ "" →
      (w.data.headD ' ').toUpper = 'R' → 4 ≤ ws.length →
      w ∈ s.voltageSourceNames → w ∈ s.currentSourceNames → ¬ w ∈ s.resistorNames →
      isOk (processWords s ws) = true) := by
  refine ⟨rfl, ?_, ?_⟩
  · intro s ws w hw hne hV hlen hr hc hmem
    subst hw
    simp only [List.headD_eq_head?] at hne hV hmem
    have c1 : ws.length > 0 := by omega
    have c3 : ¬(ws.length < 3) := by omega
    have c5 : ¬(ws.length < 5) := by omega
    simp [processWords, isOk, data_ne_nil hne, hV, c1, c3, c5, hmem]
  · intro s ws w hw hne hR hlen hv hc hmem
    subst hw
    simp only [List.headD_eq_head?] at hne hR hmem
    have c1 : ws.length > 0 := by omega
    have c3 : ¬(ws.length < 3) := by omega
    have c4 : ¬(ws.length < 4) := by omega
    simp [processWords, isOk, data_ne_nil hne, hR, c1, c3, c4, hmem]

/-- Witness for C6: a voltage source named `V1` parses even when `V1`
already sits in the resistor and current-source name sets, and
symmetrically for a resistor named `R1`. -/
theorem claim_C6_witness :
    isOk (processWords
      { initState with resistorNames := ["V1"], currentSourceNames := ["V1"] }
      ["V1", "1", "GND", "dc", "5"]) = true ∧
    isOk (processWords
      { initState with voltageSourceNames := ["R1"], currentSourceNames := ["R1"] }
      ["R1", "1", "GND", "5"]) = true :=
  ⟨claim_C6.2.1 _ ["V1", "1", "GND", "dc", "5"] "V1" rfl (by decide) (by decide)
      (by decide) (by decide) (by decide) (by decide),
   claim_C6.2.2 _ ["R1", "1", "GND", "5"] "R1" rfl (by decide) (by decide)
      (by decide) (by decide) (by decide) (by decide)⟩

/-- C10: every line equal to `.circuit` re-enables element parsing and
every line equal to `.end` disables it; the parsing loop processes the
concatenation of line lists sequentially; and on a file with two
`.circuit`/`.end` blocks the components of both blocks are combined
into one circuit. -/
theorem claim_C10 :
    (∀ s : ParseState, processLine s ".circuit" = .ok { s with junk := false }) ∧
    (∀ s : ParseState, processLine s ".end" = .ok { s with junk := true }) ∧
    (∀ (l1 l2 : List String) (s : ParseState),
      parseLines s (l1 ++ l2) =
        match parseLines s l1 with
        | .ok s2 => parseLines s2 l2
        | .error e => .error e) ∧
    parsing [".circuit", "R1 1 GND 5", ".end", "stray text between blocks",
        ".circuit", "R2 2 GND 7", ".end"] =
      .ok ([⟨"R1", 1, 0, "5"⟩, ⟨"R2", 2, 0, "7"⟩], [], [],
        [("GND", 0), ("1", 1), ("2", 2)], 3) := by
  refine ⟨fun s => rfl, fun s => rfl, ?_, rfl⟩
  intro l1 l2 s
  induction l1 generalizing s with
  | nil => simp [parseLines]
  | cons l ls ih =>
    simp only [List.cons_append, parseLines]
    cases h : processLine s l with
    | ok s2 => simp [h, ih]
    | error e => simp [h]

/-! ### Parser state invariants

The node map assigns indices `0, 1, 2, …` in insertion order, ground
first, with no repeated names; the counter tracks the map's size. -/

/-- Invariant of the node map and counter maintained by the parser. -/
structure MapInv (m : List (String × Nat)) (c : Nat) : Prop where
  cnt : c = m.length
  vals : m.map Prod.snd = List.range m.length
  gnd : ∃ rest, m = ("GND", 0) :: rest
  nodup : (m.map Prod.fst).Nodup

theorem lookup_none_not_mem {l : List (String × Nat)} {a : String}
    (h : l.lookup a = none) : a ∉ l.map Prod.fst := by
  induction l with
  | nil => simp
  | cons p rest ih =>
    rw [List.lookup] at h
    by_cases he : a = p.1
    · simp [he, beq_iff_eq] at h
    · simp only [List.map_cons, List.mem_cons]
      rintro (h1 | h1)
      · exact he h1
      · have hb : (a == p.1) = false := by simp [he]
        rw [hb] at h
        exact ih h h1

theorem lookup_some_mem {l : List (String × Nat)} {a : String} {b : Nat}
    (h : l.lookup a = some b) : a ∈ l.map Prod.fst := by
  induction l with
  | nil => simp [List.lookup] at h
  | cons p rest ih =>
    rw [List.lookup] at h
    by_cases he : a = p.1
    · simp [he]
    · have hb : (a == p.1) = false := by simp [he]
      rw [hb] at h
      simp only [List.map_cons, List.mem_cons]
      exact Or.inr (ih h)

theorem mapping_nodes_minv {m : List (String × Nat)} {c : Nat} (w : String)
    (h : MapInv m c) :
    MapInv (mapping_nodes w m c).2.1 (mapping_nodes w m c).2.2 ∧
      ((mapping_nodes w m c).2.1.map Prod.fst).toFinset =
        insert w (m.map Prod.fst).toFinset := by
  unfold mapping_nodes
  cases hl : m.lookup w with
  | some i =>
    refine ⟨h, ?_⟩
    have hmem : w ∈ m.map Prod.fst := lookup_some_mem hl
    rw [Finset.insert_eq_self.mpr (List.mem_toFinset.mpr hmem)]
  | none =>
    have hmem : w ∉ m.map Prod.fst := lookup_none_not_mem hl
    constructor
    · constructor
      · simp [h.cnt]
      · rw [List.map_append, h.vals, List.length_append, h.cnt]
        simp [List.range_succ]
      · obtain ⟨rest, hrest⟩ := h.gnd
        exact ⟨rest ++ [(w, c)], by rw [hrest]; rfl⟩
      · rw [List.map_append]
        simp [List.nodup_append, h.nodup, hmem]
    · rw [List.map_append, List.toFinset_append]
      ext a
      simp
      tauto

theorem mapping_nodes2_minv {m : List (String × Nat)} {c : Nat} (w1 w2 : String)
    (h : MapInv m c) :
    MapInv (mapping_nodes w2 (mapping_nodes w1 m c).2.1 (mapping_nodes w1 m c).2.2).2.1
        (mapping_nodes w2 (mapping_nodes w1 m c).2.1 (mapping_nodes w1 m c).2.2).2.2 ∧
      ((mapping_nodes w2 (mapping_nodes w1 m c).2.1
          (mapping_nodes w1 m c).2.2).2.1.map Prod.fst).toFinset =
        (m.map Prod.fst).toFinset ∪ {w1, w2} := by
  obtain ⟨h1, k1⟩ := mapping_nodes_minv w1 h
  obtain ⟨h2, k2⟩ := mapping_nodes_minv w2 h1
  refine ⟨h2, ?_⟩
  rw [k2, k1]
  ext a
  simp
  tauto

/-- The junk flag after processing one line: `.circuit` enables element
parsing, `.end` disables it, other lines leave it unchanged. -/
def junkAfter (l : String) (j : Bool) : Bool :=
  if pystrip l = ".circuit" then false
  else if pystrip l = ".end" then true
  else j

/-- Modelled from the spec: the node names a single line contributes to
the netlist — the second and third whitespace tokens of a non-marker
line inside the active block. -/
def lineNodes (j : Bool) (l : String) : Finset String :=
  if pystrip l = ".circuit" then ∅
  else if pystrip l = ".end" then ∅
  else if j then ∅
  else if 3 ≤ (pywords l).length then {(pywords l).getD 1 "", (pywords l).getD 2 ""}
  else ∅

/-- Modelled from the spec: the set of distinct node names present in
the netlist — the node tokens of all element lines inside
`.circuit`/`.end` blocks. -/
def nodeNamesFinset (j : Bool) : List String → Finset String
  | [] => ∅
  | l :: ls => lineNodes j l ∪ nodeNamesFinset (junkAfter l j) ls

theorem processWords_inv {s s' : ParseState} {ws : List String}
    (h : processWords s ws = .ok s') (hinv : MapInv s.nodeMapping s.nodeCounter) :
    MapInv s'.nodeMapping s'.nodeCounter ∧ s'.junk = s.junk ∧
      (s'.nodeMapping.map Prod.fst).toFinset =
        (s.nodeMapping.map Prod.fst).toFinset ∪
          (if 3 ≤ ws.length then {ws.getD 1 "", ws.getD 2 ""}
           else (∅ : Finset String)) := by
  simp only [processWords] at h
  split at h
  case isFalse hlen =>
    injection h with h
    subst h
    have h3 : ¬(3 ≤ ws.length) := by omega
    refine ⟨hinv, rfl, ?_⟩
    rw [if_neg h3]
    simp
  case isTrue hlen =>
    split at h
    case isTrue => exact absurd h (by simp)
    case isFalse hemp =>
      split at h
      case isTrue => exact absurd h (by simp)
      case isFalse hlen3 =>
        have h3 : 3 ≤ ws.length := by omega
        obtain ⟨hm2, hk2⟩ :=
          mapping_nodes2_minv (ws.getD 1 "") (ws.getD 2 "") hinv
        split at h
        · split at h
          case isTrue => exact absurd h (by simp)
          case isFalse =>
            split at h
            case isTrue => exact absurd h (by simp)
            case isFalse =>
              injection h with h
              subst h
              exact ⟨hm2, rfl, by rw [if_pos h3]; exact hk2⟩
        · split at h
          · split at h
            case isTrue => exact absurd h (by simp)
            case isFalse =>
              split at h
              case isTrue => exact absurd h (by simp)
              case isFalse =>
                injection h with h
                subst h
                exact ⟨hm2, rfl, by rw [if_pos h3]; exact hk2⟩
          · split at h
            · split at h
              case isTrue => exact absurd h (by simp)
              case isFalse =>
                split at h
                case isTrue => exact absurd h (by simp)
                case isFalse =>
                  injection h with h
                  subst h
                  exact ⟨hm2, rfl, by rw [if_pos h3]; exact hk2⟩
            · exact absurd h (by simp)

theorem processLine_inv {s s' : ParseState} {l : String}
    (h : processLine s l = .ok s') (hinv : MapInv s.nodeMapping s.nodeCounter) :
    MapInv s'.nodeMapping s'.nodeCounter ∧ s'.junk = junkAfter l s.junk ∧
      (s'.nodeMapping.map Prod.fst).toFinset =
        (s.nodeMapping.map Prod.fst).toFinset ∪ lineNodes s.junk l := by
  unfold processLine at h
  unfold junkAfter lineNodes
  split at h
  case isTrue hc =>
    injection h with h
    subst h
    simp [hc, hinv]
  case isFalse hc =>
    split at h
    case isTrue he =>
      injection h with h
      subst h
      simp [hc, he, hinv]
    case isFalse he =>
      split at h
      case isTrue hj =>
        injection h with h
        subst h
        simp [hc, he, hj, hinv]
      case isFalse hj =>
        obtain ⟨hm, hjunk, hkey⟩ := processWords_inv h hinv
        rw [if_neg hc, if_neg he]
        have hj2 : s.junk = false := by simpa using hj
        refine ⟨hm, ?_, ?_⟩
        · rw [hjunk]
        · rw [hkey, if_neg (by simp [hj2] : ¬(s.junk = true)), if_neg hc, if_neg he]


theorem parseLines_inv :
    ∀ (lines : List String) (s s' : ParseState), parseLines s lines = .ok s' →
      MapInv s.nodeMapping s.nodeCounter →
      MapInv s'.nodeMapping s'.nodeCounter ∧
        (s'.nodeMapping.map Prod.fst).toFinset =
          (s.nodeMapping.map Prod.fst).toFinset ∪ nodeNamesFinset s.junk lines
  | [], s, s', h, hinv => by
    unfold parseLines at h
    injection h with h
    subst h
    simp [nodeNamesFinset, hinv]
  | l :: ls, s, s', h, hinv => by
    unfold parseLines at h
    split at h
    case h_2 => exact absurd h (by simp)
    case h_1 s2 h2 =>
      obtain ⟨hm2, hjunk2, hkey2⟩ := processLine_inv h2 hinv
      obtain ⟨hm3, hkey3⟩ := parseLines_inv ls s2 s' h hm2
      refine ⟨hm3, ?_⟩
      rw [hkey3, hkey2, hjunk2]
      simp [nodeNamesFinset, Finset.union_assoc]

theorem initState_minv : MapInv initState.nodeMapping initState.nodeCounter :=
  ⟨rfl, by decide, ⟨[], rfl⟩, by decide⟩

theorem parsing_inv {lines : List String} {Rs Vs Is : List Component}
    {nm : List (String × Nat)} {nc : Nat}
    (h : parsing lines = .ok (Rs, Vs, Is, nm, nc)) :
    MapInv nm nc ∧
      (nm.map Prod.fst).toFinset = insert "GND" (nodeNamesFinset true lines) := by
  unfold parsing at h
  split at h
  · exact absurd h (by simp)
  · split at h
    · exact absurd h (by simp)
    · split at h
      case h_2 => exact absurd h (by simp)
      case h_1 s hs =>
        simp only [Except.ok.injEq, Prod.mk.injEq] at h
        obtain ⟨h1, h2, h3, h4, h5⟩ := h
        subst h4
        subst h5
        obtain ⟨hm, hkey⟩ := parseLines_inv lines initState s hs initState_minv
        refine ⟨hm, ?_⟩
        rw [hkey, Finset.insert_eq]
        have hinit : ((initState.nodeMapping).map Prod.fst).toFinset =
            ({"GND"} : Finset String) := by simp [initState]
        rw [hinit]
        rfl

theorem npSolve_length {M : List (List ℚ)} {b sol : List ℚ}
    (h : npSolve M b = some sol) : sol.length = M.length := by
  simp only [npSolve] at h
  split at h
  · exact absurd h (by simp)
  · injection h with h
    rw [← h]
    simp

theorem length_filterMap_all {α β : Type} (f : α → Option β) :
    ∀ l : List α, (∀ x ∈ l, (f x).isSome = true) →
      (l.filterMap f).length = l.length
  | [], _ => rfl
  | x :: xs, h => by
    obtain ⟨y, hy⟩ := Option.isSome_iff_exists.mp (h x (by simp))
    rw [List.filterMap_cons, hy]
    simp only [List.length_cons]
    rw [length_filterMap_all f xs (fun a ha => h a (by simp [ha]))]

theorem evalSpice_ok_elim {lines : List String} {v c : List (String × ℚ)}
    (h : evalSpice lines = .ok (v, c)) :
    ∃ Rs Vs Is nm nc M b sol,
      parsing lines = .ok (Rs, Vs, Is, nm, nc) ∧
      matrix_formation Rs Vs Is nm nc = .ok (M, b) ∧
      npSolve M b = some sol ∧
      v = buildVoltages nm sol ∧ c = buildCurrents nc sol 0 Vs := by
  unfold evalSpice at h
  split at h
  case h_1 => exact absurd h (by simp)
  case h_2 Rs Vs Is nm nc hp =>
    split at h
    case h_1 => exact absurd h (by simp)
    case h_2 M b hmf =>
      split at h
      case h_1 => exact absurd h (by simp)
      case h_2 sol hsol =>
        injection h with h
        rw [Prod.mk.injEq] at h
        obtain ⟨hv, hc⟩ := h
        exact ⟨Rs, Vs, Is, nm, nc, M, b, sol, hp, hmf, hsol, hv.symm, hc.symm⟩

/-- C4: every successful evaluation returns a voltages map containing
`GND` with value exactly 0: the parser seeds the node map with
`("GND", 0)` and the result mapper assigns ground the constant 0. -/
theorem claim_C4 : ∀ (lines : List String) (v c : List (String × ℚ)),
    evalSpice lines = .ok (v, c) → v.lookup "GND" = some 0 := by
  intro lines v c h
  obtain ⟨Rs, Vs, Is, nm, nc, M, b, sol, hp, hm, hs, hv, hc⟩ := evalSpice_ok_elim h
  obtain ⟨hmi, hkey⟩ := parsing_inv hp
  obtain ⟨rest, hrest⟩ := hmi.gnd
  subst hv
  rw [hrest]
  simp [buildVoltages, List.filterMap_cons, List.lookup]

/-- C5: every successful evaluation returns exactly one voltage entry
per distinct node name of the netlist, counting `GND`: the voltage map
is built from the node map, whose keys are `GND` plus the node tokens
encountered inside the `.circuit`/`.end` blocks, each exactly once,
and the range guard `i <= len(solution)` never drops an entry. -/
theorem claim_C5 : ∀ (lines : List String) (v c : List (String × ℚ)),
    evalSpice lines = .ok (v, c) →
    v.length = (insert "GND" (nodeNamesFinset true lines)).card := by
  intro lines v c h
  obtain ⟨Rs, Vs, Is, nm, nc, M, b, sol, hp, hm, hs, hv, hc⟩ := evalSpice_ok_elim h
  obtain ⟨hmi, hkey⟩ := parsing_inv hp
  subst hv
  rw [← hkey, List.toFinset_card_of_nodup hmi.nodup, List.length_map]
  have hsol : sol.length = (nc - 1) + Vs.length := by
    rw [npSolve_length hs, (matrix_formation_shape hm).1.1]
  unfold buildVoltages
  apply length_filterMap_all
  intro p hp2
  by_cases hg : p.1 = "GND"
  · simp [hg]
  · have hp3 : p.2 < nm.length := by
      have hmem : p.2 ∈ nm.map Prod.snd := List.mem_map_of_mem _ hp2
      rw [hmi.vals] at hmem
      exact List.mem_range.mp hmem
    have hle : p.2 ≤ sol.length := by
      have hnc : nc = nm.length := hmi.cnt
      omega
    simp [hg, hle]

theorem evalSpice_example :
    evalSpice [".circuit", "V1 1 GND dc 10", "R1 1 GND 5", ".end"] =
      .ok ([("GND", 0), ("1", 10)], [("V1", -2)]) := by
  have hf5 : pyfloat "5" = some 5 := rfl
  have hf10 : pyfloat "10" = some 10 := rfl
  have h1 : parsing [".circuit", "V1 1 GND dc 10", "R1 1 GND 5", ".end"] =
      .ok ([⟨"R1", 1, 0, "5"⟩], [⟨"V1", 1, 0, "10"⟩], [], [("GND", 0), ("1", 1)], 2) := rfl
  have h2 : matrix_formation [⟨"R1", 1, 0, "5"⟩] [⟨"V1", 1, 0, "10"⟩] []
      [("GND", 0), ("1", 1)] 2 = .ok ([[1/5, 1], [1, 0]], [0, 10]) := by
    norm_num [matrix_formation, stampResistors, stampResistor, stampCurrents,
      stampVoltages, stampVoltage, pyModifyMat, pyModifyVec, pyIndex, hf5, hf10,
      List.set, List.getD, List.replicate, Int.toNat]
  have h3 : npSolve [[1/5, 1], [1, 0]] [0, 10] = some [10, -2] := by
    norm_num [npSolve, det, detAux, minorMat, List.range_succ, List.getD,
      List.eraseIdx, replaceCol, List.set]
  simp only [evalSpice, h1, h2, h3]
  norm_num [buildVoltages, buildCurrents, List.filterMap_cons, List.getD]
  decide

/-- Witness for C4: the circuit `V1 1 GND dc 10 / R1 1 GND 5` evaluates
successfully and its voltages map sends `GND` to 0. -/
theorem claim_C4_witness :
    ([("GND", (0 : ℚ)), ("1", 10)] : List (String × ℚ)).lookup "GND" = some 0 :=
  claim_C4 [".circuit", "V1 1 GND dc 10", "R1 1 GND 5", ".end"]
    [("GND", 0), ("1", 10)] [("V1", -2)] evalSpice_example

/-- Witness for C5: the same circuit has voltage entries exactly for its
two distinct node names `GND` and `1`. -/
theorem claim_C5_witness :
    ([("GND", (0 : ℚ)), ("1", 10)] : List (String × ℚ)).length =
      (insert "GND" (nodeNamesFinset true
        [".circuit", "V1 1 GND dc 10", "R1 1 GND 5", ".end"])).card :=
  claim_C5 [".circuit", "V1 1 GND dc 10", "R1 1 GND 5", ".end"]
    [("GND", 0), ("1", 10)] [("V1", -2)] evalSpice_example

end Spice
